import Mathlib

/-!
Verification of the Mermaid repair pipeline of obsidian-mermaid-zoom-plugin.

JavaScript strings are modelled as `List Char` (`Str`), with character
offsets as `Nat`.  `String.prototype.slice(a, b)` for non-negative
arguments is `(s.drop a).take (b - a)`; `indexOf` is first-occurrence
search; `trim` drops the JS whitespace class from both ends.

Each definition is a direct translation of the corresponding function of
the repository (file and function named in its doc comment).  External
collaborators (the RegExp engine iteration of `exec`, the Mermaid parser,
the HTTP fetch, the editor buffer) are modelled as explicit parameters
constrained exactly by the guarantees the JavaScript runtime gives.
-/

namespace MermaidZoom

/-- JavaScript string: a sequence of characters addressed by offset. -/
abbrev Str := List Char

/-- JS `s.slice(a, b)` for `0 ≤ a, b` (clamping beyond the length, empty
when `a ≥ b`), i.e. the characters of `[a, b)`. -/
def jsSlice (s : Str) (a b : Nat) : Str :=
  (s.drop a).take (b - a)

/-- JS `s.slice(a)`: the suffix from offset `a`. -/
def jsSliceFrom (s : Str) (a : Nat) : Str :=
  s.drop a

/-- JS `whole.indexOf(sub)`: offset of the first occurrence of `sub` in
`whole`, `none` for the JS result `-1`. -/
def indexOfSub (whole sub : Str) : Option Nat :=
  go whole 0
where
  go : Str → Nat → Option Nat
    | [], i => if sub = [] then some i else none
    | c :: cs, i =>
      if sub.isPrefixOf (c :: cs) then some i else go cs (i + 1)

/-- The JS whitespace class (`\s`, also the set removed by `trim`):
space, tab, line terminators, NBSP, BOM, ogham mark, the U+2000 range,
and the other Unicode space separators. -/
def isJsWhitespace (c : Char) : Bool :=
  c = ' ' || c = '\t' || c = '\n' || c = '\r' || c = '\x0b' || c = '\x0c' ||
  c = '\u00a0' || c = '\u1680' || ('\u2000' ≤ c && c ≤ '\u200a') ||
  c = '\u2028' || c = '\u2029' || c = '\u202f' || c = '\u205f' ||
  c = '\u3000' || c = '\ufeff'

/-- JS `s.trim()`: strip the JS whitespace class from both ends. -/
def trimJs (s : Str) : Str :=
  ((s.dropWhile isJsWhitespace).reverse.dropWhile isJsWhitespace).reverse

/-! ## BlockExtractor — `extractMermaidBlocks` (src/utils.ts)

The mermaid fence regular expression is executed by the host RegExp
engine through repeated `re.exec(text)` calls.  We model the engine's
output as the list of matches it yields, constrained by exactly the
guarantees `exec` with the `g` flag provides for a pattern that cannot
match the empty string: each match's text occurs verbatim at its
`index`, matches are non-empty, and each subsequent match starts at or
after the end of the previous one (`lastIndex` advancement). -/

/-- One `RegExpExecArray` produced by the fence pattern: `index` is
`m.index`, `whole` is `m[0]`, and the remaining fields are the capture
groups `m[2]` (indent), `m[3]` (fence), `m[4]` (info text) and `m[5]`
(code body) used by `extractMermaidBlocks`. -/
structure FenceMatch where
  index : Nat
  whole : Str
  indent : Str
  fence : Str
  infoRaw : Str
  code : Str
deriving DecidableEq, Repr

/-- `m[0]` occurs verbatim at `m.index` in `text` and is non-empty. -/
def matchOccursAt (text : Str) (m : FenceMatch) : Bool :=
  decide (m.index + m.whole.length ≤ text.length) &&
  decide (jsSlice text m.index (m.index + m.whole.length) = m.whole) &&
  decide (m.whole ≠ [])

/-- The `exec`-loop guarantee, relative to a current `lastIndex`:
matches occur in the text, in order, each starting at or after the end
of the previous one. -/
def execChain (text : Str) : Nat → List FenceMatch → Bool
  | _, [] => true
  | pos, m :: rest =>
    decide (pos ≤ m.index) && matchOccursAt text m &&
    execChain text (m.index + m.whole.length) rest

/-- Well-formedness of a full `while ((m = re.exec(text)))` iteration. -/
def execWF (text : Str) (ms : List FenceMatch) : Bool :=
  execChain text 0 ms

/-- The `MermaidBlock` record built by `extractMermaidBlocks`
(src/types.ts). -/
structure MermaidBlock where
  startOffset : Nat
  endOffset : Nat
  fenceOpen : Str
  fenceClose : Str
  info : Str
  code : Str
  index : Nat
deriving DecidableEq, Repr

/-- The fence-open string rebuilt by `extractMermaidBlocks`:
`` `${indent}${fence}mermaid${info ? " " + info : ""}` ``. -/
def mkFenceOpen (indent fence info : Str) : Str :=
  indent ++ fence ++ ("mermaid".data) ++ (if info = [] then [] else ' ' :: info)

/-- Loop body of `extractMermaidBlocks` (src/utils.ts, lines 122–134):
for each match, compute the code's offset inside `m[0]` via `indexOf`,
skip the match if it is not found, and otherwise record a block with
document offsets and a running index. -/
def extractGo : List FenceMatch → Nat → List MermaidBlock
  | [], _ => []
  | m :: rest, idx =>
    let indent := m.indent
    let fence := m.fence
    let info := trimJs m.infoRaw
    let code := m.code
    match indexOfSub m.whole code with
    | none => extractGo rest idx
    | some rel =>
      { startOffset := m.index + rel
        endOffset := m.index + rel + code.length
        fenceOpen := mkFenceOpen indent fence info
        fenceClose := fence
        info := info
        code := code
        index := idx } :: extractGo rest (idx + 1)

/-- `extractMermaidBlocks` (src/utils.ts, lines 117–136), with the
RegExp engine's match list made explicit. -/
def extractMermaidBlocks (_text : Str) (ms : List FenceMatch) : List MermaidBlock :=
  extractGo ms 0

/-! ## ReplacementApplier — `applyReplacementsToContent` (src/main.ts)

`OffsetRangeReplacement` is the `{ start, end, text }` record of
src/types.ts; the `end` field is spelled `stop` because `end` is a Lean
keyword.  `Array.prototype.sort` with the comparator
`(a, b) => b.start - a.start` is a stable sort by descending `start`;
it is modelled by Mathlib's (stable) insertion sort under the total
preorder `descStart`. -/

/-- The `{ start, end, text }` offset-range replacement record
(src/types.ts); `stop` is the source's `end`. -/
structure OffsetRangeReplacement where
  start : Nat
  stop : Nat
  text : Str
deriving DecidableEq, Repr

/-- Comparator order of `(a, b) => b.start - a.start`: descending by
`start`. -/
def descStart (a b : OffsetRangeReplacement) : Prop :=
  b.start ≤ a.start

instance : DecidableRel descStart := fun a b => Nat.decLe b.start a.start

instance : IsTotal OffsetRangeReplacement descStart :=
  ⟨fun a b => Nat.le_total b.start a.start⟩

instance : IsTrans OffsetRangeReplacement descStart :=
  ⟨fun _ _ _ h1 h2 => Nat.le_trans h2 h1⟩

/-- Strict version of `descStart`; two replacements with distinct
starts in `descStart` order are in `descStartStrict` order. -/
def descStartStrict (a b : OffsetRangeReplacement) : Prop :=
  b.start < a.start

instance : IsAntisymm OffsetRangeReplacement descStartStrict :=
  ⟨fun _ _ h1 h2 => absurd h1 (Nat.lt_asymm h2)⟩

/-- Ascending-start order (used for the specification-side canonical
form of a replacement pass). -/
def ascStart (a b : OffsetRangeReplacement) : Prop :=
  a.start ≤ b.start

instance : DecidableRel ascStart := fun a b => Nat.decLe a.start b.start

instance : IsTotal OffsetRangeReplacement ascStart :=
  ⟨fun a b => Nat.le_total a.start b.start⟩

instance : IsTrans OffsetRangeReplacement ascStart :=
  ⟨fun _ _ _ h1 h2 => Nat.le_trans h1 h2⟩

/-- Strict ascending-start order. -/
def ascStartStrict (a b : OffsetRangeReplacement) : Prop :=
  a.start < b.start

instance : IsAntisymm OffsetRangeReplacement ascStartStrict :=
  ⟨fun _ _ h1 h2 => absurd h1 (Nat.lt_asymm h2)⟩

/-- `[...replacements].sort((a, b) => b.start - a.start)`: stable sort
by descending start. -/
def sortByStartDesc (replacements : List OffsetRangeReplacement) :
    List OffsetRangeReplacement :=
  List.insertionSort descStart replacements

/-- One iteration of the splice loop:
`result.slice(0, r.start) + r.text + result.slice(r.end)`. -/
def spliceOne (result : Str) (r : OffsetRangeReplacement) : Str :=
  result.take r.start ++ r.text ++ result.drop r.stop

/-- `applyReplacementsToContent` (src/main.ts, lines 568–578): sort the
replacements by descending start, then splice each in turn directly
against the evolving string. -/
def applyReplacementsToContent (content : Str)
    (replacements : List OffsetRangeReplacement) : Str :=
  (sortByStartDesc replacements).foldl spliceOne content

/-- Specification-side canonical result (from the spec's words): the
replacements, taken one at a time in ascending original-offset order,
each interpreted against the original offsets of the text — i.e. the
untouched segments of the original text interleaved with the
replacement texts. -/
def spliceSegsFrom (content : Str) (pos : Nat) :
    List OffsetRangeReplacement → Str
  | [] => content.drop pos
  | r :: rs =>
    (content.drop pos).take (r.start - pos) ++ r.text ++
      spliceSegsFrom content r.stop rs

/-- Specification-side meaning of "applying the same replacements one
at a time in any order, each interpreted against the original offsets
of T": the order-independent canonical splice, written against the
ascending arrangement of the set. -/
def applyEachAtOriginalOffsets (content : Str)
    (replacements : List OffsetRangeReplacement) : Str :=
  spliceSegsFrom content 0 (List.insertionSort ascStart replacements)

/-- A replacement is in-bounds for `content`:
`0 ≤ start ≤ end ≤ content.length`. -/
def repInBounds (content : Str) (r : OffsetRangeReplacement) : Prop :=
  r.start ≤ r.stop ∧ r.stop ≤ content.length

/-- Two half-open spans `[start, end)` do not overlap. -/
def repNonOverlap (a b : OffsetRangeReplacement) : Prop :=
  a.stop ≤ b.start ∨ b.stop ≤ a.start

instance : DecidableRel repNonOverlap := fun _ _ => instDecidableOr

instance (content : Str) : DecidablePred (repInBounds content) :=
  fun _ => instDecidableAnd

/-- The claim's precondition on a replacement set: pairwise
non-overlapping spans, all in-bounds. -/
def replacementSetWF (content : Str)
    (replacements : List OffsetRangeReplacement) : Prop :=
  (∀ r ∈ replacements, repInBounds content r) ∧
    replacements.Pairwise repNonOverlap

instance (content : Str) (replacements : List OffsetRangeReplacement) :
    Decidable (replacementSetWF content replacements) :=
  inferInstanceAs (Decidable (_ ∧ _))

/-- Pairwise-distinct start offsets (the amendment forced by the
coincident-start counterexample). -/
def distinctStarts (replacements : List OffsetRangeReplacement) : Prop :=
  replacements.Pairwise (fun a b => a.start ≠ b.start)

instance (replacements : List OffsetRangeReplacement) :
    Decidable (distinctStarts replacements) :=
  inferInstanceAs (Decidable (List.Pairwise _ _))

/-! ## Directive preservation — `preserveInitIfNeeded` (src/gemini.ts) -/

/-- JS `original.split(/\r?\n/)`: split at each `\r\n` or `\n`. -/
def splitLinesCRLF : Str → List Str
  | [] => [[]]
  | '\r' :: '\n' :: rest => [] :: splitLinesCRLF rest
  | '\n' :: rest => [] :: splitLinesCRLF rest
  | c :: rest =>
    match splitLinesCRLF rest with
    | [] => [[c]]
    | l :: ls => (c :: l) :: ls

/-- Does `p` hold of some suffix of the string?  (Backbone of an
unanchored `RegExp.test`.) -/
def anySuffix (p : Str → Bool) : Str → Bool
  | [] => p []
  | c :: rest => p (c :: rest) || anySuffix p rest

/-- JS `s.includes(sub)` / a literal `RegExp.test`. -/
def containsSub (s sub : Str) : Bool :=
  anySuffix (fun t => sub.isPrefixOf t) s

/-- ASCII lowering (the fragment of `toLowerCase` exercised by the
`/not found/i` test). -/
def toLowerAscii (c : Char) : Char :=
  if 'A' ≤ c && c ≤ 'Z' then Char.ofNat (c.toNat + 32) else c

/-- Case-insensitive containment, for `/not found/i`. -/
def containsCI (s sub : Str) : Bool :=
  containsSub (s.map toLowerAscii) (sub.map toLowerAscii)

/-- `/init\s*:/` at the start of the string: `init`, then greedy `\s*`,
then `:`; since `:` is not whitespace this is "the first non-whitespace
character after `init` is `:`". -/
def initColonHere (s : Str) : Bool :=
  ("init".data).isPrefixOf s &&
    ((s.drop 4).dropWhile isJsWhitespace).head? = some ':'

/-- `/init\s*:/.test(l)`. -/
def testInitColon (l : Str) : Bool :=
  anySuffix initColonHere l

/-- No U+007D closing brace in the string (the `[^}]` class). -/
def noCloseBrace (u : Str) : Bool :=
  u.all (fun c => c ≠ '\x7d')

/-- Body of the directive pattern after its `%%`-open-brace: some split
`u ++ "init" ++ v ++ "}%%" ++ …` with `u`, `v` brace-free. -/
def initDirectiveBody (t : Str) : Bool :=
  (List.range (t.length + 1)).any fun j =>
    noCloseBrace (t.take j) && ("init".data).isPrefixOf (t.drop j) &&
      ((List.range (t.length + 1)).any fun k =>
        decide (j + 4 ≤ k) && noCloseBrace (jsSlice t (j + 4) k) &&
          ("\x7d%%".data).isPrefixOf (t.drop k))

/-- `/%%\{[^}]*init[^}]*\}%%/.test(fixed)` (src/gemini.ts, line 362). -/
def hasInitDirective (s : Str) : Bool :=
  anySuffix (fun t => ("%%\x7b".data).isPrefixOf t && initDirectiveBody (t.drop 3)) s

/-- The predicate of `origLines.find(...)`:
`l.trim().startsWith("%%{") && /init\s*:/.test(l)`. -/
def isInitLine (l : Str) : Bool :=
  ("%%\x7b".data).isPrefixOf (trimJs l) && testInitColon l

/-- `origLines.find((l) => ...)` over the `/\r?\n/` split of the
original block text. -/
def findInitLine (original : Str) : Option Str :=
  (splitLinesCRLF original).find? isInitLine

/-- `preserveInitIfNeeded` (src/gemini.ts, lines 357–365). -/
def preserveInitIfNeeded (original fixed : Str) (enabled : Bool) : Str :=
  if !enabled then fixed
  else
    match findInitLine original with
    | none => fixed
    | some origInitLine =>
      if hasInitDirective fixed then fixed
      else trimJs origInitLine ++ '\n' :: fixed

/-! ## CorrectionClient error taxonomy — `callGeminiSingle` (src/gemini.ts)

The HTTP `fetch` is external: its outcome is a status code plus body
text, and `JSON.parse` is modelled by an optional parsed envelope
(`none` = the parse threw).  `callGeminiSingle` then classifies the
response exactly as the source does. -/

/-- Status and body text of the `fetch` response. -/
structure HttpResponse where
  status : Nat
  text : Str
deriving DecidableEq, Repr

/-- JS `res.ok`: status in the 200–299 range. -/
def resOk (res : HttpResponse) : Bool :=
  200 ≤ res.status && res.status ≤ 299

/-- One element of `candidates` in the response envelope:
`finishReason` (absent or a string) and the `content.parts[].text`
fragments. -/
structure GeminiCandidate where
  finishReason : Option Str
  partsText : List Str
deriving DecidableEq, Repr

/-- The parsed response envelope: `candidates`, and the
`promptFeedback` fields used on the no-candidate path. -/
structure GeminiEnvelope where
  candidates : List GeminiCandidate
  blockReason : Option Str
  safetyRatings : List (Str × Str)
deriving DecidableEq, Repr

/-- The 401/403 message of `callGeminiSingle`. -/
def authErrMsg (status : Nat) (text : Str) : Str :=
  ("Gemini API 認証エラー (".data) ++ Nat.toDigits 10 status ++
    ("). APIキーやプロジェクト設定を確認してください。応答: ".data) ++ text

/-- The 404 + `/not found/i` message of `callGeminiSingle`. -/
def modelNotFoundMsg (version text : Str) : Str :=
  ("モデルが見つかりません (".data) ++ version ++
    ("). モデル名とAPIバージョンの組み合わせを確認してください。応答: ".data) ++ text

/-- The 429 message of `callGeminiSingle`. -/
def rateLimitMsg (text : Str) : Str :=
  ("レート制限に到達しました (429)。応答: ".data) ++ text

/-- The `status ≥ 500` message of `callGeminiSingle`. -/
def serverErrMsg (status : Nat) (text : Str) : Str :=
  ("Gemini サーバーエラー (".data) ++ Nat.toDigits 10 status ++
    (")。応答: ".data) ++ text

/-- The residual non-ok message of `callGeminiSingle`. -/
def genericApiErrMsg (status : Nat) (text : Str) : Str :=
  ("Gemini API エラー: ".data) ++ Nat.toDigits 10 status ++ (" ".data) ++ text

/-- The `JSON.parse` failure message of `callGeminiSingle`. -/
def jsonParseErrMsg (text : Str) : Str :=
  ("Gemini応答のJSON解析に失敗しました。生データ: ".data) ++ jsSlice text 0 400

/-- The no-candidate message of `callGeminiSingle`, built from
`promptFeedback`. -/
def noCandidateMsg (data : GeminiEnvelope) : Str :=
  let reason := data.blockReason.getD ("候補が返されませんでした".data)
  let ratings :=
    List.intercalate (", ".data)
      (data.safetyRatings.map fun rt => rt.1 ++ (":".data) ++ rt.2)
  ("Geminiからの応答が不正です。理由: ".data) ++ reason ++
    (if ratings = [] then [] else ("（詳細: ".data) ++ ratings ++ ("）".data))

/-- The non-terminal `finishReason` message of `callGeminiSingle`. -/
def incompleteMsg (fr : Str) : Str :=
  ("生成が完了しませんでした。finishReason=".data) ++ fr

/-- `callGeminiSingle` (src/gemini.ts, lines 230–284), from the fetch
response onward: classify non-ok statuses into the distinct error
messages, then interpret the parsed envelope; on success return the
concatenated candidate text. -/
def callGeminiSingle (version : Str) (res : HttpResponse)
    (parsed : Option GeminiEnvelope) : Except Str Str :=
  if !resOk res then
    .error
      (if res.status = 401 || res.status = 403 then authErrMsg res.status res.text
       else if res.status = 404 && containsCI res.text ("not found".data) then
         modelNotFoundMsg version res.text
       else if res.status = 429 then rateLimitMsg res.text
       else if 500 ≤ res.status then serverErrMsg res.status res.text
       else genericApiErrMsg res.status res.text)
  else
    match parsed with
    | none => .error (jsonParseErrMsg res.text)
    | some data =>
      match data.candidates.head? with
      | none => .error (noCandidateMsg data)
      | some candidate =>
        match candidate.finishReason with
        | some fr =>
          if fr ≠ [] && fr ≠ ("STOP".data) && fr ≠ ("MAX_TOKENS".data) then
            .error (incompleteMsg fr)
          else .ok candidate.partsText.flatten
        | none => .ok candidate.partsText.flatten

/-! ## RetryOrchestrator — `runFixWithGemini` (src/main.ts)

The correction client call is external and may depend on the attempt
number, the current code and the last error; the validation oracle is a
function from candidate text to a `ValidationResult`.  `stopIfFileChanged`
is the external context-change check, indexed by the block position. -/

/-- The `{ ok, error }` result of `validateMermaidAsync`. -/
structure ValidationResult where
  ok : Bool
  error : Option Str
deriving DecidableEq, Repr

/-- The hard-error test of the orchestrator's catch branch:
`/認証エラー|モデルが見つかりません|応答のJSON解析/i.test(message)`. -/
def isHardErrorMsg (msg : Str) : Bool :=
  containsSub msg ("認証エラー".data) ||
  containsSub msg ("モデルが見つかりません".data) ||
  containsSub msg ("応答のJSON解析".data)

/-- Outcome of one block's attempt loop: the `success` / `fixedCode` /
`cancelled` variables at loop exit plus the number of client calls
made. -/
structure BlockAttemptResult where
  success : Bool
  fixedCode : Option Str
  cancelled : Bool
  attemptsUsed : Nat
deriving DecidableEq, Repr

/-- The per-block attempt loop of `runFixWithGemini` (src/main.ts,
lines 323–349): on a thrown client error, mark the attempt failed, set
`cancelled` when the message matches the hard-error pattern, and break;
on a client result, re-attach the preserved directive, validate, and
either succeed or feed the candidate and its error into the next
attempt. -/
def fixBlockGo (client : Nat → Str → Str → Except Str Str)
    (validate : Str → ValidationResult) (preserve : Bool) (blockCode : Str) :
    Nat → Nat → Str → Str → BlockAttemptResult
  | 0, used, _, _ => ⟨false, none, false, used⟩
  | remaining + 1, used, currentCode, lastError =>
    let attempt := used + 1
    match client attempt currentCode lastError with
    | .error e => ⟨false, none, isHardErrorMsg e, attempt⟩
    | .ok proposedFix =>
      let codeToValidate := preserveInitIfNeeded blockCode proposedFix preserve
      let v := validate codeToValidate
      if v.ok then ⟨true, some codeToValidate, false, attempt⟩
      else
        fixBlockGo client validate preserve blockCode remaining attempt
          codeToValidate (v.error.getD ("修正後もエラーが残っています".data))

/-- The attempt loop seeded as in the source:
`currentCode = block.code`, `lastError` = the initiating validation
error, up to `maxAttempts` attempts. -/
def fixBlockLoop (client : Nat → Str → Str → Except Str Str)
    (validate : Str → ValidationResult) (preserve : Bool) (blockCode : Str)
    (maxAttempts : Nat) (initialError : Str) : BlockAttemptResult :=
  fixBlockGo client validate preserve blockCode maxAttempts 0 blockCode initialError

/-- One entry of `errorBlocks`: a block plus its initiating validation
error. -/
structure ErrorBlock where
  block : MermaidBlock
  error : Str
deriving DecidableEq, Repr

/-- Batch outcome: the queued replacements, the `cancelled` flag, and
the number of blocks whose attempt loop was entered. -/
structure BatchResult where
  replacements : List OffsetRangeReplacement
  cancelled : Bool
  processed : Nat
deriving DecidableEq, Repr

/-- The block loop of `runFixWithGemini` (src/main.ts, lines 317–381),
in auto-apply mode: stop when cancelled or the active file changed; run
the attempt loop; stop (cancelled) when it cancelled; queue a
replacement on success; move to the next block otherwise. -/
def runFixBatchGo (client : Nat → Nat → Str → Str → Except Str Str)
    (validate : Str → ValidationResult) (preserve : Bool) (maxAttempts : Nat)
    (fileChanged : Nat → Bool) :
    List ErrorBlock → Nat → List OffsetRangeReplacement → BatchResult
  | [], i, reps => ⟨reps, false, i⟩
  | eb :: rest, i, reps =>
    if fileChanged i then ⟨reps, true, i⟩
    else
      let r := fixBlockLoop (client i) validate preserve eb.block.code maxAttempts eb.error
      if r.cancelled then ⟨reps, true, i + 1⟩
      else if r.success then
        match r.fixedCode with
        | some f =>
          runFixBatchGo client validate preserve maxAttempts fileChanged rest (i + 1)
            (reps ++ [⟨eb.block.startOffset, eb.block.endOffset, f⟩])
        | none => runFixBatchGo client validate preserve maxAttempts fileChanged rest (i + 1) reps
      else runFixBatchGo client validate preserve maxAttempts fileChanged rest (i + 1) reps

/-- `clamp` (src/utils.ts, line 6) on naturals. -/
def clampNat (n lo hi : Nat) : Nat :=
  max lo (min hi n)

/-- `applyReplacementsReverse` (src/replacements.ts, lines 4–14):
sort descending by start, clamp each span against the captured document
length, and perform each ranged replacement against the evolving
buffer. -/
def applyReplacementsReverse (doc : Str)
    (reps : List OffsetRangeReplacement) : Str :=
  (sortByStartDesc reps).foldl
    (fun result r =>
      let s := clampNat r.start 0 doc.length
      let e := clampNat r.stop s doc.length
      result.take s ++ r.text ++ result.drop e)
    doc

/-- `runFixWithGemini` (src/main.ts), from the collected `errorBlocks`
onward: run the batch loop, then apply the queued replacements to the
document only when not cancelled and at least one exists. -/
def runFixWithGemini (doc : Str) (client : Nat → Nat → Str → Str → Except Str Str)
    (validate : Str → ValidationResult) (preserve : Bool) (maxAttempts : Nat)
    (fileChanged : Nat → Bool) (errorBlocks : List ErrorBlock) :
    Str × BatchResult :=
  let b := runFixBatchGo client validate preserve maxAttempts fileChanged errorBlocks 0 []
  (if !b.cancelled && b.replacements ≠ [] then applyReplacementsReverse doc b.replacements
   else doc, b)

/-! ## Shared regex helpers for the two normalization passes -/

/-- `/^".*"$/.test(s)`: a leading and a trailing double quote with the
middle matched by `.*` (the JS dot excludes `\n`, `\r`, U+2028 and
U+2029). -/
def regexDotChar (c : Char) : Bool :=
  c ≠ '\n' && c ≠ '\r' && c ≠ '\u2028' && c ≠ '\u2029'

/-- `/^".*"$/.test(s)`. -/
def alreadyQuotedRe (s : Str) : Bool :=
  match s with
  | '"' :: rest =>
    rest ≠ [] && rest.getLast? = some '"' && rest.dropLast.all regexDotChar
  | _ => false

/-! ## The correction client's normalization (src/gemini.ts, lines 5–33) -/

namespace Gemini

/-- `/<br\s*\/?>/i` anchored at the start of `s`: the matched length,
or `none`.  The `\s*` is greedy; backtracking cannot rescue a failure
because neither `/` nor `>` is whitespace. -/
def matchBrTagLen (s : Str) : Option Nat :=
  match s with
  | '<' :: c1 :: c2 :: rest =>
    if (c1 = 'b' || c1 = 'B') && (c2 = 'r' || c2 = 'R') then
      let n := (rest.takeWhile isJsWhitespace).length
      match rest.drop n with
      | '/' :: '>' :: _ => some (3 + n + 2)
      | '>' :: _ => some (3 + n + 1)
      | _ => none
    else none
  | _ => none

/-- Global `inner.replace(/<br\s*\/?>/gi, "\\n")` (the replacement is
the two characters `\` `n`), fuelled scan. -/
def replaceBrTagsGo : Nat → Str → Str
  | 0, s => s
  | _ + 1, [] => []
  | fuel + 1, c :: rest =>
    match matchBrTagLen (c :: rest) with
    | some n => '\\' :: 'n' :: replaceBrTagsGo fuel ((c :: rest).drop n)
    | none => c :: replaceBrTagsGo fuel rest

/-- `inner.replace(/<br\s*\/?>/gi, "\\n")`. -/
def replaceBrTags (s : Str) : Str :=
  replaceBrTagsGo s.length s

/-- Step 1 of `preNormalizeMermaid` (src/gemini.ts, lines 17–20):
`code.replace(/\[([\s\S]*?)\]/g, ...)` — from each `[`, the lazy body
runs to the first following `]`; inside it every break tag becomes
`\n`. -/
def replaceBracketsBrGo : Nat → Str → Str
  | 0, s => s
  | _ + 1, [] => []
  | fuel + 1, c :: rest =>
    if c = '[' then
      match rest.findIdx? (fun d => d = ']') with
      | none => c :: rest
      | some q =>
        '[' :: (replaceBrTags (rest.take q) ++ ']' :: replaceBracketsBrGo fuel (rest.drop (q + 1)))
    else c :: replaceBracketsBrGo fuel rest

/-- Step 1 of the client's `preNormalizeMermaid`. -/
def replaceBracketsBr (s : Str) : Str :=
  replaceBracketsBrGo s.length s

/-- The quoting trigger `/\\n|[<>]|"|,|\(|\)|\{|\}|:/.test(inner)`. -/
def needsQuoteRe (inner : Str) : Bool :=
  containsSub inner ('\\' :: 'n' :: []) ||
  inner.any (fun c =>
    c = '<' || c = '>' || c = '"' || c = ',' || c = '(' || c = ')' ||
    c = '\x7b' || c = '\x7d' || c = ':')

/-- `inner.replace(/"/g, '\\"')`. -/
def escapeQuotes : Str → Str
  | [] => []
  | '"' :: rest => '\\' :: '"' :: escapeQuotes rest
  | c :: rest => c :: escapeQuotes rest

/-- The replacement body of step 2: keep an already-quoted or
quote-free label, otherwise escape inner quotes and wrap in double
quotes. -/
def quoteInner (inner : Str) : Str :=
  if alreadyQuotedRe inner || !needsQuoteRe inner then inner
  else '"' :: (escapeQuotes inner ++ ['"'])

/-- Step 2 of `preNormalizeMermaid` (src/gemini.ts, lines 23–29):
`out.replace(/\[([^\]\n]*)\]/g, ...)` — a bracket pair on one line with
a `]`-free body, re-quoted when needed. -/
def quoteLabelsGo : Nat → Str → Str
  | 0, s => s
  | _ + 1, [] => []
  | fuel + 1, c :: rest =>
    if c = '[' then
      let inner := rest.takeWhile (fun d => d ≠ ']' && d ≠ '\n')
      match rest.drop inner.length with
      | ']' :: tail => '[' :: (quoteInner inner ++ ']' :: quoteLabelsGo fuel tail)
      | _ => c :: quoteLabelsGo fuel rest
    else c :: quoteLabelsGo fuel rest

/-- Step 2 of the client's `preNormalizeMermaid`. -/
def quoteLabels (s : Str) : Str :=
  quoteLabelsGo s.length s

/-- The zero-width class `[​-‍⁠]`. -/
def isZeroWidth (c : Char) : Bool :=
  ('\u200b' ≤ c && c ≤ '\u200d') || c = '\u2060'

/-- The dash class `[−ー―]` (U+2212, U+30FC, U+2015 — the source class
lists U+2015 twice). -/
def isFullwidthDash (c : Char) : Bool :=
  c = '\u2212' || c = '\u30fc' || c = '\u2015'

/-- Strip a trailing run of space/tab (the body of `[ \t]+$`). -/
def stripTrailingSpaceTab (seg : Str) : Str :=
  (seg.reverse.dropWhile (fun c => c = ' ' || c = '\t')).reverse

/-- Split at `\n` (the positions where the multiline `$` sits). -/
def splitOnNl : Str → List Str
  | [] => [[]]
  | '\n' :: rest => [] :: splitOnNl rest
  | c :: rest =>
    match splitOnNl rest with
    | [] => [[c]]
    | l :: ls => (c :: l) :: ls

/-- `s.replace(/[ \t]+$/gm, "")`. -/
def stripLineTrailingWs (s : Str) : Str :=
  List.intercalate ('\n' :: []) ((splitOnNl s).map stripTrailingSpaceTab)

/-- `normalizeSurface` (src/gemini.ts, lines 5–12): remove BOM, remove
zero-width characters, map the dash class to `-`, map U+3000 to a
space, and strip trailing space/tab per line. -/
def normalizeSurface (s : Str) : Str :=
  let s1 := s.filter (fun c => c ≠ '\ufeff')
  let s2 := s1.filter (fun c => !isZeroWidth c)
  let s3 := s2.map (fun c => if isFullwidthDash c then '-' else c)
  let s4 := s3.map (fun c => if c = '\u3000' then ' ' else c)
  stripLineTrailingWs s4

/-- `preNormalizeMermaid` (src/gemini.ts, lines 15–33): bracket-scoped
break-tag rewriting, label re-quoting, then surface normalization. -/
def preNormalizeMermaid (code : Str) : Str :=
  normalizeSurface (quoteLabels (replaceBracketsBr code))

end Gemini

/-! ## The validation oracle's normalization (src/utils.ts, lines 45–59)

The pattern is
`([A-Za-z0-9_\-]+)\s*(\[|\(|\{{1,2})\s*([\s\S]*?)\s*(\]|\)|\}{1,2})`
with flags `gi`.  Note that in both shape groups the `{1,2}` binds only
to the *last* alternative (`\{` resp. `\}`), so `[`, `(`, `]`, `)`
match singly while `{` / `}` may match doubled.  Backtracking analysis
(each step justified in the doc comments): the greedy id run, the
greedy whitespace runs and the greedy shape choices are deterministic
because id, whitespace, shape-open and shape-close characters are
pairwise disjoint classes; the lazy label therefore stops at the first
shape-close character, with the whitespace immediately before it taken
by the third `\s*`. -/

namespace Utils

/-- The id class `[A-Za-z0-9_\-]`. -/
def isIdChar (c : Char) : Bool :=
  ('A' ≤ c && c ≤ 'Z') || ('a' ≤ c && c ≤ 'z') || ('0' ≤ c && c ≤ '9') ||
  c = '_' || c = '-'

/-- Shape-close class `]`, `)`, `}`. -/
def isCloseShape (c : Char) : Bool :=
  c = ']' || c = ')' || c = '\x7d'

/-- `/<br\s*\/?\s*>/i` anchored at the start (this variant also allows
whitespace after the optional slash): matched length or `none`. -/
def matchBrTagLoose (s : Str) : Option Nat :=
  match s with
  | '<' :: c1 :: c2 :: rest =>
    if (c1 = 'b' || c1 = 'B') && (c2 = 'r' || c2 = 'R') then
      let n1 := (rest.takeWhile isJsWhitespace).length
      match rest.drop n1 with
      | '/' :: r2 =>
        let n2 := (r2.takeWhile isJsWhitespace).length
        match r2.drop n2 with
        | '>' :: _ => some (3 + n1 + 1 + n2 + 1)
        | _ => none
      | '>' :: _ => some (3 + n1 + 1)
      | _ => none
    else none
  | _ => none

/-- `/<br\s*\/?\s*>/i.test(label)`. -/
def brTestLoose (label : Str) : Bool :=
  anySuffix (fun t => (matchBrTagLoose t).isSome) label

/-- Global `label.replace(/<br\s*\/?\s*>/gi, "\\n")`, fuelled scan. -/
def replaceBrLooseGo : Nat → Str → Str
  | 0, s => s
  | _ + 1, [] => []
  | fuel + 1, c :: rest =>
    match matchBrTagLoose (c :: rest) with
    | some n => '\\' :: 'n' :: replaceBrLooseGo fuel ((c :: rest).drop n)
    | none => c :: replaceBrLooseGo fuel rest

/-- `label.replace(/<br\s*\/?\s*>/gi, "\\n")`. -/
def replaceBrLoose (s : Str) : Str :=
  replaceBrLooseGo s.length s

/-- The capture groups of one match of the label pattern plus the total
match length (id, shape-open, label, shape-close; the three whitespace
runs are recovered from `len` when the match is kept verbatim). -/
structure LabelMatch where
  id : Str
  opn : Str
  label : Str
  cls : Str
  len : Nat
deriving DecidableEq, Repr

/-- The continuation after the shape-open group: greedy `\s*`, then the
lazy label up to the first shape-close character (with the whitespace
immediately before it going to the third `\s*`), then the shape-close
group (`}` doubles greedily, `]` and `)` are single). -/
def matchAfterOpen (id opn : Str) (consumed : Nat) (r : Str) : Option LabelMatch :=
  let ws2 := (r.takeWhile isJsWhitespace).length
  let w := r.drop ws2
  match w.findIdx? isCloseShape with
  | none => none
  | some q =>
    let label := ((w.take q).reverse.dropWhile isJsWhitespace).reverse
    let clsLen : Nat :=
      match w.drop q with
      | '\x7d' :: '\x7d' :: _ => 2
      | _ => 1
    some { id := id, opn := opn, label := label,
           cls := (w.drop q).take clsLen,
           len := consumed + ws2 + q + clsLen }

/-- The label pattern anchored at the start of `s`: greedy id run,
greedy `\s*`, then the shape-open group (`{` doubles greedily, `[` and
`(` are single; a failed `{{` cannot be rescued by `{` because the
extra `{` is not a close character, so the greedy choice is safe). -/
def matchLabelAt (s : Str) : Option LabelMatch :=
  let id := s.takeWhile isIdChar
  if id = [] then none
  else
    let r1 := s.drop id.length
    let ws1 := (r1.takeWhile isJsWhitespace).length
    match r1.drop ws1 with
    | c :: r3 =>
      if c = '[' || c = '(' then
        matchAfterOpen id [c] (id.length + ws1 + 1) r3
      else if c = '\x7b' then
        match r3 with
        | '\x7b' :: r4 =>
          matchAfterOpen id ('\x7b' :: '\x7b' :: []) (id.length + ws1 + 2) r4
        | _ => matchAfterOpen id ('\x7b' :: []) (id.length + ws1 + 1) r3
      else none
    | [] => none

/-- The replacement callback (src/utils.ts, lines 52–57): keep the
match verbatim unless the label contains a break tag; otherwise rewrite
break tags to `\n`, trim, re-quote unless already quoted (without
escaping), and reassemble without the whitespace runs. -/
def labelReplacement (m : LabelMatch) (wholeMatch : Str) : Str :=
  if !brTestLoose m.label then wholeMatch
  else
    let replaced := replaceBrLoose m.label
    let trimmed := trimJs replaced
    let wrapped := if alreadyQuotedRe trimmed then trimmed else '"' :: (trimmed ++ ['"'])
    m.id ++ m.opn ++ wrapped ++ m.cls

/-- The global `code.replace(re, ...)` scan, fuelled. -/
def preNormGo : Nat → Str → Str
  | 0, s => s
  | _ + 1, [] => []
  | fuel + 1, c :: rest =>
    match matchLabelAt (c :: rest) with
    | none => c :: preNormGo fuel rest
    | some m => labelReplacement m ((c :: rest).take m.len) ++ preNormGo fuel ((c :: rest).drop m.len)

/-- `preNormalizeMermaid` (src/utils.ts, lines 45–59). -/
def preNormalizeMermaid (code : Str) : Str :=
  preNormGo code.length code

end Utils

/-! ## ValidationOracle — `validateMermaidAsync` (src/utils.ts)

The global `window.mermaid` object is external state.  Its observable
surface for this function is the `parseError` hook (of abstract handler
type `α`) plus the availability of the three parse entry points.  The
parser run is an arbitrary behaviour: it may return, reject or throw
(`outcome`), may itself mutate the mermaid object including the hook
(`post`), and may report an error through the installed hook
(`reported`, the last value the trap recorded). -/

/-- The observable state of the global mermaid object. -/
structure MermaidApi (α : Type) where
  parseError : α
  hasParse : Bool
  hasApiParse : Bool
  hasRender : Bool

/-- One run of whichever parse entry point was chosen: outcome
(normal return / resolved promise vs. sync throw / rejection), the
mermaid object afterwards, and what the installed trap recorded. -/
structure ParseRun (α : Type) where
  outcome : Except Str Unit
  post : MermaidApi α
  reported : Option Str

/-- `validateMermaidAsync` (src/utils.ts, lines 77–115): missing
mermaid → not-ok; otherwise save `parseError`, install the trap, try
one of the entry points (or return "parse API not found" when none
exists), interpret throw/trap/success, and restore the previous
`parseError` in the `finally` on every path. -/
def validateMermaidAsync {α : Type} (api : Option (MermaidApi α)) (trapHook : α)
    (runParse : Str → MermaidApi α → ParseRun α) (codeRaw : Str) :
    ValidationResult × Option (MermaidApi α) :=
  match api with
  | none => ({ ok := false, error := some ("Mermaid がロードされていません。".data) }, none)
  | some m =>
    let code := Utils.preNormalizeMermaid codeRaw
    let prevParseError := m.parseError
    let installed := { m with parseError := trapHook }
    if m.hasParse || m.hasApiParse || m.hasRender then
      let r := runParse code installed
      let restored := { r.post with parseError := prevParseError }
      match r.outcome with
      | .error e => ({ ok := false, error := some e }, some restored)
      | .ok _ =>
        match r.reported with
        | some trapped => ({ ok := false, error := some trapped }, some restored)
        | none => ({ ok := true, error := none }, some restored)
    else
      ({ ok := false, error := some ("Mermaid の parse API が見つかりません。".data) },
        some { installed with parseError := prevParseError })

/-! ## CorrectionClient — `geminiFixSingle` (src/gemini.ts) -/

/-- The `\w` class `[A-Za-z0-9_]`. -/
def isAsciiWordChar (c : Char) : Bool :=
  ('A' ≤ c && c ≤ 'Z') || ('a' ≤ c && c ≤ 'z') || ('0' ≤ c && c ≤ '9') || c = '_'

/-- Case-insensitive keyword at the start of `t` followed by a word
boundary (`/^kw\b/i`). -/
def kwAt (t : Str) (kw : String) : Bool :=
  (t.take kw.length).map toLowerAscii = kw.data.map toLowerAscii &&
    (match (t.drop kw.length).head? with
     | none => true
     | some c => !isAsciiWordChar c)

/-- `/^stateDiagram(?:-v2)?\b/i`: the optional `-v2` is tried greedily,
and when the boundary after it fails the engine backtracks to the bare
keyword, whose following `-` is itself a boundary. -/
def stateDiagramAt (t : Str) : Bool :=
  (t.take 12).map toLowerAscii = ("statediagram".data).map toLowerAscii &&
    (let r := t.drop 12
     (("-v2".data).map toLowerAscii = (r.take 3).map toLowerAscii &&
        (match (r.drop 3).head? with
         | none => true
         | some c => !isAsciiWordChar c)) ||
      (match r.head? with
       | none => true
       | some c => !isAsciiWordChar c))

/-- `inferDiagramType` (src/utils.ts, lines 62–75). -/
def inferDiagramType (code : Str) : Option Str :=
  let t := trimJs code
  if kwAt t "sequenceDiagram" then some ("sequenceDiagram".data)
  else if kwAt t "classDiagram" then some ("classDiagram".data)
  else if kwAt t "erDiagram" then some ("erDiagram".data)
  else if stateDiagramAt t then some ("stateDiagram".data)
  else if kwAt t "gantt" then some ("gantt".data)
  else if kwAt t "journey" then some ("journey".data)
  else if kwAt t "pie" then some ("pie".data)
  else if kwAt t "mindmap" then some ("mindmap".data)
  else if kwAt t "timeline" then some ("timeline".data)
  else if kwAt t "flowchart" || kwAt t "graph" then some ("graph".data)
  else none

/-- An attempted sentinel match anchored at `s`
(`/BEGIN_MERMAID\s*\n([\s\S]*?)\nEND_MERMAID/`): after the opening
marker the greedy `\s*\n` commits to the latest `\n` inside the
whitespace run that lets the rest match (tried in backtracking order),
and the lazy body runs to the first following `"\nEND_MERMAID"`. -/
def sentinelAt (s : Str) : Option Str :=
  if ("BEGIN_MERMAID".data).isPrefixOf s then
    let rest := s.drop 13
    let run := rest.takeWhile isJsWhitespace
    let nlIdxs := ((List.range run.length).filter
      (fun j => run.get? j = some '\n')).reverse
    nlIdxs.findSome? fun j =>
      (indexOfSub (rest.drop (j + 1)) ('\n' :: ("END_MERMAID".data))).map
        fun k => jsSlice rest (j + 1) (j + 1 + k)
  else none

/-- Leftmost sentinel match over all start positions, fuelled scan. -/
def extractFromSentinelGo : Nat → Str → Option Str
  | 0, _ => none
  | fuel + 1, s =>
    match sentinelAt s with
    | some mid => some mid
    | none =>
      match s with
      | [] => none
      | _ :: rest => extractFromSentinelGo fuel rest

/-- `extractFromSentinel` (src/gemini.ts, lines 36–39): the trimmed
first sentinel body, or the trimmed whole output when no sentinel
matches. -/
def extractFromSentinel (output : Str) : Str :=
  match extractFromSentinelGo (output.length + 1) output with
  | some mid => trimJs mid
  | none => trimJs output

/-- Drop the last `n` characters. -/
def dropLastN (s : Str) (n : Nat) : Str :=
  s.take (s.length - n)

/-- `stripCodeFences` (src/utils.ts, lines 11–13):
`text.replace(/^```\w*\n?/, "").replace(/\n?```$/, "").trim()`. -/
def stripCodeFences (text : Str) : Str :=
  let t1 :=
    if ("```".data).isPrefixOf text then
      let r := text.drop 3
      let r2 := r.drop (r.takeWhile isAsciiWordChar).length
      match r2 with
      | '\n' :: rest => rest
      | _ => r2
    else text
  let t2 :=
    if ("```".data).isSuffixOf t1 then
      if ('\n' :: ("```".data)).isSuffixOf t1 then dropLastN t1 4 else dropLastN t1 3
    else t1
  trimJs t2

/-- `sanitizeMermaidOutput` (src/gemini.ts, lines 42–45). -/
def sanitizeMermaidOutput (out : Str) : Str :=
  Gemini.normalizeSurface (trimJs (stripCodeFences out))

/-- Lookup in the `fixMemo` map. -/
def memoLookup : List (Str × Str) → Str → Option Str
  | [], _ => none
  | (k, v) :: rest, key => if k = key then some v else memoLookup rest key

/-- `fixMemo.set(key, v)`; prepending gives `Map.set`'s overwrite
semantics under `memoLookup` (first binding wins). -/
def memoInsert (memo : List (Str × Str)) (key v : Str) : List (Str × Str) :=
  (key, v) :: memo

/-- The memo key
`` `${apiVersion}::${model}::${diagram ?? "unknown"}::${pre}::${errorMsg || ""}` ``
(`errorMsg || ""` is the identity on strings, since only the empty
string is falsy). -/
def fixMemoKey (apiVersion model : Str) (diagram : Option Str)
    (pre errorMsg : Str) : Str :=
  apiVersion ++ ("::".data) ++ model ++ ("::".data) ++
    diagram.getD ("unknown".data) ++ ("::".data) ++ pre ++ ("::".data) ++ errorMsg

deriving instance DecidableEq for Except

/-- The observable outcome of one `geminiFixSingle` call: its returned
or thrown value, the memo afterwards, and whether a network request was
issued. -/
structure FixCallResult where
  result : Except Str Str
  memo : List (Str × Str)
  networkCalled : Bool
deriving Repr

/-- `geminiFixSingle` (src/gemini.ts, lines 289–343).  The prompt
builder (`buildGeminiPromptV2`, pure deterministic string assembly) is
passed as a parameter since no verified property depends on the prompt
text; `net` is the external fetch via `withTimeout` — an error is a
network/timeout/abort rejection, a value is the HTTP response plus the
`JSON.parse` attempt on its body (`none` = parse threw). -/
def geminiFixSingle (promptBuilder : Str → Str → Option Str → Str)
    (net : Str → Except Str (HttpResponse × Option GeminiEnvelope))
    (memo : List (Str × Str)) (apiVersion model original errorMsg : Str) :
    FixCallResult :=
  let diagram := inferDiagramType original
  let pre := Gemini.preNormalizeMermaid original
  let key := fixMemoKey apiVersion model diagram pre errorMsg
  match memoLookup memo key with
  | some m => ⟨.ok m, memo, false⟩
  | none =>
    let prompt := promptBuilder pre errorMsg diagram
    match net prompt with
    | .error e => ⟨.error e, memo, true⟩
    | .ok (res, parsed) =>
      match callGeminiSingle apiVersion res parsed with
      | .error e => ⟨.error e, memo, true⟩
      | .ok raw =>
        let middle := extractFromSentinel raw
        let result := sanitizeMermaidOutput middle
        if result = [] then
          if pre ≠ [] && pre ≠ original then ⟨.ok pre, memoInsert memo key pre, true⟩
          else ⟨.error ("Geminiが有効な修正案を返しませんでした（空出力）。".data), memo, true⟩
        else ⟨.ok result, memoInsert memo key result, true⟩

/-! ## `withTimeout` (src/utils.ts, lines 22–32)

Shallow denotation of the promise race: the wrapped promise is
characterized by its settle time (in ms) and outcome.  For `ms ≤ 0` the
function returns the promise itself, arming no timer.  Otherwise a
timer is armed for `ms` ms; if the promise settles strictly first it
wins the race (and clears the timer); otherwise the timer fires,
aborts the controller and rejects with the timeout message. -/

/-- The timeout rejection message. -/
def timeoutErrMsg : Str :=
  ("リクエストがタイムアウトしました。".data)

/-- Observable behaviour of one `withTimeout` application. -/
structure WithTimeoutRun (α : Type) where
  timerArmed : Bool
  aborted : Bool
  settled : Except Str α
deriving Repr

/-- `withTimeout` (src/utils.ts, lines 22–32) as a timed denotation. -/
def withTimeout {α : Type} (pTime : Nat) (pOutcome : Except Str α) (ms : Int) :
    WithTimeoutRun α :=
  if ms ≤ 0 then ⟨false, false, pOutcome⟩
  else if (pTime : Int) < ms then ⟨true, false, pOutcome⟩
  else ⟨true, true, .error timeoutErrMsg⟩

/-! # Theorems -/

/-! ## C1 — extraction round-trip and ordering -/

theorem indexOfSub_go_spec (sub : Str) :
    ∀ (s : Str) (i r : Nat), indexOfSub.go sub s i = some r →
      ∃ j, r = i + j ∧ j + sub.length ≤ s.length ∧ (s.drop j).take sub.length = sub := by
  intro s
  induction s with
  | nil =>
    intro i r h
    simp only [indexOfSub.go] at h
    split at h
    · rename_i hsub
      cases h
      exact ⟨0, by omega, by simp [hsub], by simp [hsub]⟩
    · cases h
  | cons c cs ih =>
    intro i r h
    simp only [indexOfSub.go] at h
    split at h
    · rename_i hpre
      have hpre' : sub <+: (c :: cs) := List.isPrefixOf_iff_prefix.mp hpre
      refine ⟨0, by cases h; omega, ?_, ?_⟩
      · simpa using hpre'.length_le
      · simpa using (List.prefix_iff_eq_take.mp hpre').symm
    · obtain ⟨j, hj, hlen, htake⟩ := ih (i + 1) r h
      refine ⟨j + 1, by omega, ?_, by simpa using htake⟩
      simp only [List.length_cons]
      omega

theorem indexOfSub_spec (whole sub : Str) (rel : Nat)
    (h : indexOfSub whole sub = some rel) :
    rel + sub.length ≤ whole.length ∧ (whole.drop rel).take sub.length = sub := by
  obtain ⟨j, hj, hlen, htake⟩ := indexOfSub_go_spec sub whole 0 rel h
  subst hj
  simpa using ⟨hlen, htake⟩

theorem indexOfSub_nil (whole : Str) : indexOfSub whole [] = some 0 := by
  cases whole <;> simp [indexOfSub, indexOfSub.go, List.isPrefixOf]

theorem matchOccursAt_spec (text : Str) (m : FenceMatch)
    (h : matchOccursAt text m = true) :
    m.index + m.whole.length ≤ text.length ∧
      jsSlice text m.index (m.index + m.whole.length) = m.whole ∧ m.whole ≠ [] := by
  simp only [matchOccursAt, Bool.and_eq_true, decide_eq_true_eq] at h
  exact ⟨h.1.1, h.1.2, h.2⟩

theorem block_roundtrip (text : Str) (m : FenceMatch) (rel : Nat)
    (hocc : matchOccursAt text m = true)
    (hrel : indexOfSub m.whole m.code = some rel) :
    jsSlice text (m.index + rel) (m.index + rel + m.code.length) = m.code ∧
      m.index + rel + m.code.length ≤ m.index + m.whole.length ∧
      rel < m.whole.length := by
  obtain ⟨hb, hslice, hne⟩ := matchOccursAt_spec text m hocc
  obtain ⟨hlen, htake⟩ := indexOfSub_spec m.whole m.code rel hrel
  have hwpos : 0 < m.whole.length := List.length_pos.mpr hne
  have hrelw : rel < m.whole.length := by
    cases hc : m.code with
    | nil =>
      rw [hc, indexOfSub_nil] at hrel
      cases hrel
      omega
    | cons c cs =>
      rw [hc] at hlen
      simp only [List.length_cons] at hlen
      omega
  refine ⟨?_, by omega, hrelw⟩
  have hdropw : m.whole = (text.drop m.index).take m.whole.length := by
    have h := hslice
    simp only [jsSlice, Nat.add_sub_cancel_left] at h
    exact h.symm
  have h1 : m.whole.drop rel =
      ((text.drop m.index).drop rel).take (m.whole.length - rel) := by
    conv_lhs => rw [hdropw]
    rw [List.drop_take]
  have htake2 :
      (((text.drop m.index).drop rel).take m.code.length) = m.code := by
    rw [h1, List.take_take, Nat.min_eq_left (by omega)] at htake
    exact htake
  have harith : m.index + rel + m.code.length - (m.index + rel) = m.code.length := by
    omega
  have h2 : text.drop (m.index + rel) = (text.drop m.index).drop rel := by
    rw [List.drop_drop, Nat.add_comm]
  rw [jsSlice, harith, h2]
  exact htake2

theorem extractGo_spec (text : Str) :
    ∀ (ms : List FenceMatch) (pos idx : Nat), execChain text pos ms = true →
      (∀ b ∈ extractGo ms idx, pos ≤ b.startOffset ∧
          jsSlice text b.startOffset b.endOffset = b.code) ∧
      (extractGo ms idx).Pairwise
        (fun a b => a.startOffset < b.startOffset ∧ a.endOffset ≤ b.startOffset) := by
  intro ms
  induction ms with
  | nil => intro pos idx _; simp [extractGo]
  | cons m rest ih =>
    intro pos idx h
    simp only [execChain, Bool.and_eq_true, decide_eq_true_eq] at h
    obtain ⟨⟨hpos, hocc⟩, hchain⟩ := h
    simp only [extractGo]
    cases hidx : indexOfSub m.whole m.code with
    | none =>
      obtain ⟨hmem, hpw⟩ := ih (m.index + m.whole.length) idx hchain
      exact ⟨fun b hb => ⟨by have := (hmem b hb).1; omega, (hmem b hb).2⟩, hpw⟩
    | some rel =>
      obtain ⟨hslice, hend, hrelw⟩ := block_roundtrip text m rel hocc hidx
      obtain ⟨hmem, hpw⟩ := ih (m.index + m.whole.length) (idx + 1) hchain
      constructor
      · intro b hb
        rcases List.mem_cons.mp hb with hb | hb
        · subst hb
          refine ⟨?_, ?_⟩
          · show pos ≤ m.index + rel
            omega
          · show jsSlice text (m.index + rel) (m.index + rel + m.code.length) = m.code
            exact hslice
        · exact ⟨by have := (hmem b hb).1; omega, (hmem b hb).2⟩
      · refine List.Pairwise.cons (fun b hb => ?_) hpw
        have hble : m.index + m.whole.length ≤ b.startOffset := (hmem b hb).1
        refine ⟨?_, ?_⟩
        · show m.index + rel < b.startOffset
          omega
        · show m.index + rel + m.code.length ≤ b.startOffset
          omega

/-- C1: for every document and every well-formed iteration of the fence
regular expression, every block returned by `extractMermaidBlocks`
satisfies `D.slice(b.startOffset, b.endOffset) === b.code`, and the
blocks are pairwise strictly ordered by ascending `startOffset` with
non-overlapping `[startOffset, endOffset)` spans. -/
theorem extractMermaidBlocks_roundtrip_ordered (text : Str) (ms : List FenceMatch)
    (h : execWF text ms = true) :
    (∀ b ∈ extractMermaidBlocks text ms,
        jsSlice text b.startOffset b.endOffset = b.code) ∧
    (extractMermaidBlocks text ms).Pairwise
      (fun a b => a.startOffset < b.startOffset ∧ a.endOffset ≤ b.startOffset) := by
  obtain ⟨hmem, hpw⟩ := extractGo_spec text ms 0 0 h
  exact ⟨fun b hb => (hmem b hb).2, hpw⟩

/-- Witness for C1 at a two-block document. -/
theorem extractMermaidBlocks_roundtrip_ordered_witness :
    execWF ("```mermaid\nA\n```\n```mermaid\nB\n```".data)
      [⟨0, "```mermaid\nA\n```".data, [], "```".data, [], "A".data⟩,
       ⟨17, "```mermaid\nB\n```".data, [], "```".data, [], "B".data⟩] = true ∧
    ((∀ b ∈ extractMermaidBlocks ("```mermaid\nA\n```\n```mermaid\nB\n```".data)
        [⟨0, "```mermaid\nA\n```".data, [], "```".data, [], "A".data⟩,
         ⟨17, "```mermaid\nB\n```".data, [], "```".data, [], "B".data⟩],
        jsSlice ("```mermaid\nA\n```\n```mermaid\nB\n```".data)
          b.startOffset b.endOffset = b.code) ∧
      (extractMermaidBlocks ("```mermaid\nA\n```\n```mermaid\nB\n```".data)
        [⟨0, "```mermaid\nA\n```".data, [], "```".data, [], "A".data⟩,
         ⟨17, "```mermaid\nB\n```".data, [], "```".data, [], "B".data⟩]).Pairwise
        (fun a b => a.startOffset < b.startOffset ∧ a.endOffset ≤ b.startOffset)) :=
  ⟨by decide, extractMermaidBlocks_roundtrip_ordered _ _ (by decide)⟩

/-! ## C2 — replacement application vs. original-offset splicing -/

theorem sortByStartDesc_perm (l : List OffsetRangeReplacement) :
    List.Perm (sortByStartDesc l) l :=
  List.perm_insertionSort _ _

theorem sortByStartDesc_sorted (l : List OffsetRangeReplacement) :
    (sortByStartDesc l).Sorted descStart :=
  List.sorted_insertionSort _ _

theorem sorted_desc_strict (l : List OffsetRangeReplacement)
    (hd : l.Pairwise fun a b => a.start ≠ b.start)
    (hs : l.Sorted descStart) : l.Sorted descStartStrict :=
  (hs.and hd).imp fun h => lt_of_le_of_ne h.1 (Ne.symm h.2)

theorem neStart_symm :
    ∀ {x y : OffsetRangeReplacement}, x.start ≠ y.start → y.start ≠ x.start :=
  fun h => Ne.symm h

theorem repNonOverlap_symm :
    ∀ {x y : OffsetRangeReplacement}, repNonOverlap x y → repNonOverlap y x :=
  fun h => h.symm

theorem sortByStartDesc_eq_of_perm (r r' : List OffsetRangeReplacement)
    (hperm : List.Perm r' r) (hd : distinctStarts r) :
    sortByStartDesc r' = sortByStartDesc r := by
  have hd' : distinctStarts r' := ((hperm.pairwise_iff neStart_symm).mpr hd : _)
  have hdS : (sortByStartDesc r).Pairwise fun a b => a.start ≠ b.start :=
    ((sortByStartDesc_perm r).pairwise_iff neStart_symm).mpr hd
  have hdS' : (sortByStartDesc r').Pairwise fun a b => a.start ≠ b.start :=
    ((sortByStartDesc_perm r').pairwise_iff neStart_symm).mpr hd'
  exact List.eq_of_perm_of_sorted
    ((sortByStartDesc_perm r').trans (hperm.trans (sortByStartDesc_perm r).symm))
    (sorted_desc_strict _ hdS' (sortByStartDesc_sorted r'))
    (sorted_desc_strict _ hdS (sortByStartDesc_sorted r))

theorem pairwise_sep_of_sorted (l : List OffsetRangeReplacement)
    (hs : l.Sorted ascStartStrict) (hno : l.Pairwise repNonOverlap)
    (hb : ∀ r ∈ l, r.start ≤ r.stop) :
    l.Pairwise (fun a b => a.stop ≤ b.start) := by
  refine (hs.and hno).imp_of_mem (fun {a b} _ hbm h => ?_)
  rcases h.2 with h2 | h2
  · exact h2
  · have h1 : a.start < b.start := h.1
    have h3 := hb b hbm
    omega

theorem foldr_splice_spec (content : Str) :
    ∀ (l : List OffsetRangeReplacement) (e : Nat),
      l.Pairwise (fun a b => a.stop ≤ b.start) →
      (∀ r ∈ l, r.start ≤ r.stop ∧ r.stop ≤ content.length) →
      (∀ r ∈ l, e ≤ r.start) → e ≤ content.length →
      (l.foldr (fun r acc => spliceOne acc r) content).take e = content.take e ∧
      (l.foldr (fun r acc => spliceOne acc r) content).drop e =
        spliceSegsFrom content e l := by
  intro l
  induction l with
  | nil => intro e _ _ _ _; exact ⟨rfl, rfl⟩
  | cons r l ih =>
    intro e hsep hb he hel
    have hrb := hb r (List.mem_cons_self _ _)
    have hsep_head : ∀ r' ∈ l, r.stop ≤ r'.start :=
      fun r' h => List.rel_of_pairwise_cons hsep h
    obtain ⟨ih1, ih2⟩ := ih r.stop (List.Pairwise.of_cons hsep)
      (fun r' h => hb r' (List.mem_cons_of_mem _ h)) hsep_head hrb.2
    set A := l.foldr (fun r acc => spliceOne acc r) content with hA
    have he_r : e ≤ r.start := he r (List.mem_cons_self _ _)
    have htakestart : A.take r.start = content.take r.start := by
      have h1 : A.take r.start = (A.take r.stop).take r.start := by
        rw [List.take_take, Nat.min_eq_left hrb.1]
      rw [h1, ih1, List.take_take, Nat.min_eq_left hrb.1]
    have hfold :
        ((r :: l).foldr (fun r acc => spliceOne acc r) content) =
          content.take r.start ++ (r.text ++ A.drop r.stop) := by
      show spliceOne A r = _
      rw [spliceOne, htakestart, List.append_assoc]
    have hlenpref : (content.take r.start).length = r.start := by
      rw [List.length_take]
      exact Nat.min_eq_left (by omega)
    constructor
    · rw [hfold, List.take_append_of_le_length (by omega),
        List.take_take, Nat.min_eq_left he_r]
    · rw [hfold, List.drop_append_of_le_length (by omega)]
      show _ ++ _ = (content.drop e).take (r.start - e) ++ r.text ++
        spliceSegsFrom content r.stop l
      rw [List.drop_take, ih2, List.append_assoc]

theorem applyDesc_eq_ideal (content : Str) (reps : List OffsetRangeReplacement)
    (hwf : replacementSetWF content reps) (hd : distinctStarts reps) :
    applyReplacementsToContent content reps =
      applyEachAtOriginalOffsets content reps := by
  obtain ⟨hbounds, hno⟩ := hwf
  set L := sortByStartDesc reps with hL
  have hLperm : List.Perm L reps := sortByStartDesc_perm reps
  have hLd : L.Pairwise fun a b => a.start ≠ b.start :=
    (hLperm.pairwise_iff neStart_symm).mpr hd
  have hLstrict : L.Sorted descStartStrict :=
    sorted_desc_strict _ hLd (sortByStartDesc_sorted reps)
  have hLno : L.Pairwise repNonOverlap :=
    (hLperm.pairwise_iff repNonOverlap_symm).mpr hno
  have hLb : ∀ r ∈ L, repInBounds content r :=
    fun r h => hbounds r (hLperm.mem_iff.mp h)
  set A := L.reverse with hAdef
  have hArev : A.reverse = L := List.reverse_reverse L
  have hAperm : List.Perm A reps := (List.reverse_perm L).trans hLperm
  have hAstrict : A.Sorted ascStartStrict :=
    List.pairwise_reverse.mpr hLstrict
  have hAno : A.Pairwise repNonOverlap :=
    List.pairwise_reverse.mpr (hLno.imp fun h => repNonOverlap_symm h)
  have hAb : ∀ r ∈ A, repInBounds content r :=
    fun r h => hLb r (by rw [← hArev]; exact List.mem_reverse.mpr h)
  have hAsep : A.Pairwise (fun a b => a.stop ≤ b.start) :=
    pairwise_sep_of_sorted A hAstrict hAno (fun r h => (hAb r h).1)
  have hfoldl :
      applyReplacementsToContent content reps =
        A.foldr (fun r acc => spliceOne acc r) content := by
    show L.foldl spliceOne content = _
    rw [← hArev, List.foldl_reverse]
  obtain ⟨_, hdrop⟩ := foldr_splice_spec content A 0 hAsep
    (fun r h => ⟨(hAb r h).1, (hAb r h).2⟩) (fun r _ => Nat.zero_le _)
    (Nat.zero_le _)
  have hsortAsc : List.insertionSort ascStart reps = A := by
    have hd' : (List.insertionSort ascStart reps).Pairwise
        fun a b => a.start ≠ b.start :=
      ((List.perm_insertionSort ascStart reps).pairwise_iff neStart_symm).mpr hd
    have hAd : A.Pairwise fun a b => a.start ≠ b.start :=
      (hAperm.pairwise_iff neStart_symm).mpr hd
    refine List.eq_of_perm_of_sorted
      ((List.perm_insertionSort ascStart reps).trans hAperm.symm) ?_ hAstrict
    exact ((List.sorted_insertionSort ascStart reps).and hd').imp
      fun h => lt_of_le_of_ne h.1 h.2
  rw [hfoldl, applyEachAtOriginalOffsets, hsortAsc]
  simpa using hdrop

/-- C2 counterexample: a non-overlapping, in-bounds replacement set over
`"ab"` containing an empty span and a non-empty span with the same
start; presenting the same set in the two possible orders makes
`applyReplacementsToContent` produce different strings, so the claimed
order-independence (agreement with applying each replacement against
the original offsets, in any order) fails as stated. -/
theorem applyReplacements_order_counterexample :
    replacementSetWF ("ab".data)
      [⟨0, 0, "X".data⟩, ⟨0, 1, "Y".data⟩] ∧
    List.Perm [(⟨0, 0, "X".data⟩ : OffsetRangeReplacement), ⟨0, 1, "Y".data⟩]
      [⟨0, 1, "Y".data⟩, ⟨0, 0, "X".data⟩] ∧
    applyReplacementsToContent ("ab".data)
        [⟨0, 0, "X".data⟩, ⟨0, 1, "Y".data⟩] = ("Yab".data) ∧
    applyReplacementsToContent ("ab".data)
        [⟨0, 1, "Y".data⟩, ⟨0, 0, "X".data⟩] = ("XYb".data) ∧
    applyReplacementsToContent ("ab".data)
        [⟨0, 0, "X".data⟩, ⟨0, 1, "Y".data⟩] ≠
      applyReplacementsToContent ("ab".data)
        [⟨0, 1, "Y".data⟩, ⟨0, 0, "X".data⟩] := by
  refine ⟨⟨?_, ?_⟩, ?_, ?_, ?_, ?_⟩ <;> decide

/-- C2 amended: for replacement sets that are non-overlapping,
in-bounds and have pairwise distinct starts, `applyReplacementsToContent`
is order-independent and agrees with applying the replacements one at a
time against the original offsets of the text. -/
theorem applyReplacementsToContent_order_independent (content : Str)
    (reps reps' : List OffsetRangeReplacement)
    (hwf : replacementSetWF content reps) (hd : distinctStarts reps)
    (hperm : List.Perm reps' reps) :
    applyReplacementsToContent content reps' =
      applyEachAtOriginalOffsets content reps ∧
    applyReplacementsToContent content reps' =
      applyReplacementsToContent content reps := by
  have hsame : applyReplacementsToContent content reps' =
      applyReplacementsToContent content reps := by
    show (sortByStartDesc reps').foldl spliceOne content = _
    rw [sortByStartDesc_eq_of_perm reps reps' hperm hd]
    rfl
  exact ⟨hsame.trans (applyDesc_eq_ideal content reps hwf hd), hsame⟩

/-- Witness for the amended C2 at a concrete two-replacement set. -/
theorem applyReplacementsToContent_order_independent_witness :
    replacementSetWF ("abcd".data)
      [⟨0, 1, "X".data⟩, ⟨2, 3, "Y".data⟩] ∧
    distinctStarts [(⟨0, 1, "X".data⟩ : OffsetRangeReplacement), ⟨2, 3, "Y".data⟩] ∧
    (applyReplacementsToContent ("abcd".data)
        [⟨2, 3, "Y".data⟩, ⟨0, 1, "X".data⟩] =
      applyEachAtOriginalOffsets ("abcd".data)
        [⟨0, 1, "X".data⟩, ⟨2, 3, "Y".data⟩] ∧
     applyReplacementsToContent ("abcd".data)
        [⟨2, 3, "Y".data⟩, ⟨0, 1, "X".data⟩] =
      applyReplacementsToContent ("abcd".data)
        [⟨0, 1, "X".data⟩, ⟨2, 3, "Y".data⟩]) :=
  ⟨by decide, by decide,
    applyReplacementsToContent_order_independent ("abcd".data)
      [⟨0, 1, "X".data⟩, ⟨2, 3, "Y".data⟩]
      [⟨2, 3, "Y".data⟩, ⟨0, 1, "X".data⟩]
      (by decide) (by decide) (by decide)⟩

/-! ## C3/C4 — service error classification and orchestrator behaviour -/

theorem isPrefixOf_append (pat t u : Str) (h : pat.isPrefixOf t = true) :
    pat.isPrefixOf (t ++ u) = true := by
  rw [List.isPrefixOf_iff_prefix] at *
  exact h.trans (List.prefix_append t u)

theorem containsSub_append_right (s u pat : Str) (h : containsSub s pat = true) :
    containsSub (s ++ u) pat = true := by
  induction s with
  | nil =>
    simp only [containsSub, anySuffix] at h
    have hpat : pat = [] := by
      cases pat with
      | nil => rfl
      | cons c cs => simp [List.isPrefixOf] at h
    subst hpat
    cases u with
    | nil => simp [containsSub, anySuffix]
    | cons c cs => simp [containsSub, anySuffix, List.isPrefixOf]
  | cons c s' ih =>
    simp only [containsSub, anySuffix, Bool.or_eq_true] at h ⊢
    rcases h with h | h
    · exact Or.inl (isPrefixOf_append pat (c :: s') u h)
    · exact Or.inr (ih h)

theorem callGeminiSingle_429 (version t : Str) (p : Option GeminiEnvelope) :
    callGeminiSingle version ⟨429, t⟩ p = .error (rateLimitMsg t) := rfl

theorem callGeminiSingle_401 (version t : Str) (p : Option GeminiEnvelope) :
    callGeminiSingle version ⟨401, t⟩ p = .error (authErrMsg 401 t) := rfl

theorem isHardErrorMsg_authErrMsg (status : Nat) (t : Str) :
    isHardErrorMsg (authErrMsg status t) = true := by
  have h1 : containsSub (authErrMsg status t) ("認証エラー".data) = true := by
    show containsSub (("Gemini API 認証エラー (".data) ++ _) _ = true
    apply containsSub_append_right
    decide
  simp [isHardErrorMsg, h1]

theorem fixBlockLoop_hard_error
    (client : Nat → Str → Str → Except Str Str) (validate : Str → ValidationResult)
    (preserve : Bool) (blockCode initialError m : Str) (maxAttempts : Nat)
    (hmax : 1 ≤ maxAttempts) (hcall : client 1 blockCode initialError = .error m) :
    fixBlockLoop client validate preserve blockCode maxAttempts initialError =
      ⟨false, none, isHardErrorMsg m, 1⟩ := by
  cases maxAttempts with
  | zero => omega
  | succ rem => simp [fixBlockLoop, fixBlockGo, hcall]

theorem runFixBatchGo_cancel_on_hard
    (client : Nat → Nat → Str → Str → Except Str Str)
    (validate : Str → ValidationResult) (preserve : Bool) (maxAttempts : Nat)
    (fileChanged : Nat → Bool) :
    ∀ (pre : List ErrorBlock) (eb : ErrorBlock) (post : List ErrorBlock)
      (i0 : Nat) (reps : List OffsetRangeReplacement),
      (∀ j, fileChanged j = false) →
      (∀ k ebk, pre.get? k = some ebk →
        (fixBlockLoop (client (i0 + k)) validate preserve ebk.block.code
          maxAttempts ebk.error).cancelled = false) →
      (fixBlockLoop (client (i0 + pre.length)) validate preserve eb.block.code
        maxAttempts eb.error).cancelled = true →
      (runFixBatchGo client validate preserve maxAttempts fileChanged
          (pre ++ eb :: post) i0 reps).cancelled = true ∧
      (runFixBatchGo client validate preserve maxAttempts fileChanged
          (pre ++ eb :: post) i0 reps).processed = i0 + pre.length + 1 := by
  intro pre
  induction pre with
  | nil =>
    intro eb post i0 reps hfc _ hhard
    simp only [List.nil_append, runFixBatchGo, hfc i0, Bool.false_eq_true,
      if_false]
    simp only [List.length_nil, Nat.add_zero] at hhard
    rw [if_pos hhard]
    exact ⟨rfl, rfl⟩
  | cons q pre' ih =>
    intro eb post i0 reps hfc hprev hhard
    have hq : (fixBlockLoop (client i0) validate preserve q.block.code
        maxAttempts q.error).cancelled = false := by
      have := hprev 0 q rfl
      simpa using this
    have hprev' : ∀ k ebk, pre'.get? k = some ebk →
        (fixBlockLoop (client (i0 + 1 + k)) validate preserve ebk.block.code
          maxAttempts ebk.error).cancelled = false := by
      intro k ebk hk
      have := hprev (k + 1) ebk (by simpa using hk)
      simpa [Nat.add_comm, Nat.add_assoc, Nat.add_left_comm] using this
    have hhard' : (fixBlockLoop (client (i0 + 1 + pre'.length)) validate preserve
        eb.block.code maxAttempts eb.error).cancelled = true := by
      have := hhard
      simp only [List.length_cons] at this
      have harith : i0 + (pre'.length + 1) = i0 + 1 + pre'.length := by omega
      rwa [harith] at this
    have goalarith : i0 + 1 + pre'.length + 1 = i0 + (pre'.length + 1) + 1 := by
      omega
    simp only [List.cons_append, runFixBatchGo, hfc i0, Bool.false_eq_true,
      if_false, hq, List.length_cons]
    rw [← goalarith]
    cases hs : (fixBlockLoop (client i0) validate preserve q.block.code
        maxAttempts q.error).success
    · simpa [hs] using ih eb post (i0 + 1) reps hfc hprev' hhard'
    · cases hf : (fixBlockLoop (client i0) validate preserve q.block.code
          maxAttempts q.error).fixedCode
      · simpa [hs, hf] using ih eb post (i0 + 1) reps hfc hprev' hhard'
      · simpa [hs, hf] using ih eb post (i0 + 1) _ hfc hprev' hhard'

/-- C4: a 401 response makes the correction client raise the distinct
authentication error; that message matches the orchestrator's
hard-error pattern, so the per-block loop cancels after one attempt,
the batch stops at that block (no later block is attempted), and no
replacement is applied to the document. -/
theorem auth401_aborts_batch
    (version t : Str) (p : Option GeminiEnvelope) (doc : Str)
    (client : Nat → Nat → Str → Str → Except Str Str)
    (validate : Str → ValidationResult) (preserve : Bool) (maxAttempts : Nat)
    (fileChanged : Nat → Bool) (pre post : List ErrorBlock) (eb : ErrorBlock)
    (hfc : ∀ j, fileChanged j = false)
    (hprev : ∀ k ebk, pre.get? k = some ebk →
      (fixBlockLoop (client k) validate preserve ebk.block.code
        maxAttempts ebk.error).cancelled = false)
    (hcall : client pre.length 1 eb.block.code eb.error = .error (authErrMsg 401 t))
    (hmax : 1 ≤ maxAttempts) :
    callGeminiSingle version ⟨401, t⟩ p = .error (authErrMsg 401 t) ∧
    isHardErrorMsg (authErrMsg 401 t) = true ∧
    fixBlockLoop (client pre.length) validate preserve eb.block.code maxAttempts
      eb.error = ⟨false, none, true, 1⟩ ∧
    (runFixWithGemini doc client validate preserve maxAttempts fileChanged
        (pre ++ eb :: post)).2.cancelled = true ∧
    (runFixWithGemini doc client validate preserve maxAttempts fileChanged
        (pre ++ eb :: post)).2.processed = pre.length + 1 ∧
    (runFixWithGemini doc client validate preserve maxAttempts fileChanged
        (pre ++ eb :: post)).1 = doc := by
  have hloop : fixBlockLoop (client pre.length) validate preserve eb.block.code
      maxAttempts eb.error = ⟨false, none, true, 1⟩ := by
    rw [fixBlockLoop_hard_error (client pre.length) validate preserve
      eb.block.code eb.error (authErrMsg 401 t) maxAttempts hmax hcall,
      isHardErrorMsg_authErrMsg]
  have hbatch := runFixBatchGo_cancel_on_hard client validate preserve
    maxAttempts fileChanged pre eb post 0 [] hfc
    (by intro k ebk hk; simpa using hprev k ebk hk)
    (by simpa using congrArg BlockAttemptResult.cancelled hloop)
  refine ⟨callGeminiSingle_401 version t p, isHardErrorMsg_authErrMsg 401 t,
    hloop, hbatch.1, by simpa using hbatch.2, ?_⟩
  simp [runFixWithGemini, hbatch.1]

/-- Witness for C4: a two-block batch whose first block's client call
answers with the 401-derived authentication error while the second
block's client would have succeeded; the batch cancels after block 0,
processes exactly one block, and leaves the document unchanged. -/
theorem auth401_aborts_batch_witness :
    callGeminiSingle ("v1beta".data) ⟨401, []⟩ none =
      .error (authErrMsg 401 []) ∧
    isHardErrorMsg (authErrMsg 401 []) = true ∧
    fixBlockLoop ((fun _ _ _ _ => Except.error (authErrMsg 401 [])) 0)
      (fun _ => ⟨true, none⟩) true ("A".data) 5 ("err".data) =
      ⟨false, none, true, 1⟩ ∧
    (runFixWithGemini ("doc".data) (fun _ _ _ _ => Except.error (authErrMsg 401 []))
        (fun _ => ⟨true, none⟩) true 5 (fun _ => false)
        ([] ++ ⟨⟨0, 1, [], [], [], "A".data, 0⟩, "err".data⟩ ::
          [⟨⟨2, 3, [], [], [], "B".data, 1⟩, "err2".data⟩])).2.cancelled = true ∧
    (runFixWithGemini ("doc".data) (fun _ _ _ _ => Except.error (authErrMsg 401 []))
        (fun _ => ⟨true, none⟩) true 5 (fun _ => false)
        ([] ++ ⟨⟨0, 1, [], [], [], "A".data, 0⟩, "err".data⟩ ::
          [⟨⟨2, 3, [], [], [], "B".data, 1⟩, "err2".data⟩])).2.processed =
      List.length ([] : List ErrorBlock) + 1 ∧
    (runFixWithGemini ("doc".data) (fun _ _ _ _ => Except.error (authErrMsg 401 []))
        (fun _ => ⟨true, none⟩) true 5 (fun _ => false)
        ([] ++ ⟨⟨0, 1, [], [], [], "A".data, 0⟩, "err".data⟩ ::
          [⟨⟨2, 3, [], [], [], "B".data, 1⟩, "err2".data⟩])).1 = ("doc".data) :=
  auth401_aborts_batch ("v1beta".data) [] none ("doc".data)
    (fun _ _ _ _ => Except.error (authErrMsg 401 []))
    (fun _ => ⟨true, none⟩) true 5 (fun _ => false) []
    [⟨⟨2, 3, [], [], [], "B".data, 1⟩, "err2".data⟩]
    ⟨⟨0, 1, [], [], [], "A".data, 0⟩, "err".data⟩
    (fun _ => rfl) (fun k ebk hk => by cases hk) rfl (by omega)

/-- C3 counterexample: with the distinct rate-limited error raised for
a 429 response on every attempt and an attempt budget of 5, the
per-block loop stops after exactly one client call with the block
unfixed and the batch not cancelled — it does not keep retrying the
block while attempts remain, contradicting the claim (which would
consume all 5 attempts here). -/
theorem rateLimited_retry_counterexample :
    callGeminiSingle ("v1beta".data) ⟨429, []⟩ none = .error (rateLimitMsg []) ∧
    isHardErrorMsg (rateLimitMsg []) = false ∧
    fixBlockLoop (fun _ _ _ => Except.error (rateLimitMsg []))
      (fun _ => ⟨true, none⟩) true ("A".data) 5 ("boom".data) =
      ⟨false, none, false, 1⟩ ∧
    (fixBlockLoop (fun _ _ _ => Except.error (rateLimitMsg []))
      (fun _ => ⟨true, none⟩) true ("A".data) 5 ("boom".data)).attemptsUsed ≠ 5 := by
  refine ⟨rfl, by decide, by decide, by decide⟩

/-- C3 amended: on a soft client error (such as the rate-limited error,
whose message does not match the hard-error pattern) the orchestrator
records the attempt as failed, abandons the block after that single
attempt, does not cancel the batch, and continues with the remaining
blocks exactly as if the block had been skipped. -/
theorem rateLimited_soft_error_abandons_block
    (clients : Nat → Nat → Str → Str → Except Str Str)
    (validate : Str → ValidationResult) (preserve : Bool) (maxAttempts : Nat)
    (fileChanged : Nat → Bool) (eb : ErrorBlock) (rest : List ErrorBlock)
    (i : Nat) (reps : List OffsetRangeReplacement) (m : Str)
    (hmax : 1 ≤ maxAttempts)
    (hcall : clients i 1 eb.block.code eb.error = .error m)
    (hsoft : isHardErrorMsg m = false) (hfc : fileChanged i = false) :
    fixBlockLoop (clients i) validate preserve eb.block.code maxAttempts eb.error
      = ⟨false, none, false, 1⟩ ∧
    runFixBatchGo clients validate preserve maxAttempts fileChanged (eb :: rest)
        i reps =
      runFixBatchGo clients validate preserve maxAttempts fileChanged rest
        (i + 1) reps := by
  have hloop : fixBlockLoop (clients i) validate preserve eb.block.code
      maxAttempts eb.error = ⟨false, none, false, 1⟩ := by
    rw [fixBlockLoop_hard_error (clients i) validate preserve eb.block.code
      eb.error m maxAttempts hmax hcall, hsoft]
  refine ⟨hloop, ?_⟩
  simp [runFixBatchGo, hfc, hloop]

/-- Witness for the amended C3: a permanently rate-limited first block
followed by a block the client fixes; the batch queues the second
block's replacement and is not cancelled. -/
theorem rateLimited_soft_error_abandons_block_witness :
    fixBlockLoop ((fun _ _ _ _ => Except.error (rateLimitMsg [])) 0)
      (fun _ => ⟨true, none⟩) true ("A".data) 5 ("boom".data) =
      ⟨false, none, false, 1⟩ ∧
    runFixBatchGo (fun _ _ _ _ => Except.error (rateLimitMsg []))
      (fun _ => ⟨true, none⟩) true 5 (fun _ => false)
      (⟨⟨0, 1, [], [], [], "A".data, 0⟩, "boom".data⟩ ::
        [⟨⟨2, 3, [], [], [], "B".data, 1⟩, "e".data⟩]) 0 [] =
    runFixBatchGo (fun _ _ _ _ => Except.error (rateLimitMsg []))
      (fun _ => ⟨true, none⟩) true 5 (fun _ => false)
      [⟨⟨2, 3, [], [], [], "B".data, 1⟩, "e".data⟩] 1 [] :=
  rateLimited_soft_error_abandons_block
    (fun _ _ _ _ => Except.error (rateLimitMsg []))
    (fun _ => ⟨true, none⟩) true 5 (fun _ => false)
    ⟨⟨0, 1, [], [], [], "A".data, 0⟩, "boom".data⟩
    [⟨⟨2, 3, [], [], [], "B".data, 1⟩, "e".data⟩] 0 [] (rateLimitMsg [])
    (by omega) rfl (by decide) rfl

/-! ## C5 — directive preservation -/

/-- C5 counterexample: when the original's directive line carries
leading whitespace, `preserveInitIfNeeded` prepends the **trimmed**
line, not the original line verbatim and byte-for-byte. -/
theorem preserveInit_verbatim_counterexample :
    findInitLine ("  %%\x7binit: a\x7d%%\nflowchart TD".data) =
      some ("  %%\x7binit: a\x7d%%".data) ∧
    hasInitDirective ("flowchart TD".data) = false ∧
    preserveInitIfNeeded ("  %%\x7binit: a\x7d%%\nflowchart TD".data)
        ("flowchart TD".data) true =
      ("%%\x7binit: a\x7d%%\nflowchart TD".data) ∧
    preserveInitIfNeeded ("  %%\x7binit: a\x7d%%\nflowchart TD".data)
        ("flowchart TD".data) true ≠
      ("  %%\x7binit: a\x7d%%".data) ++ '\n' :: ("flowchart TD".data) := by
  refine ⟨by decide, by decide, by decide, by decide⟩

/-- C5 amended: with preservation enabled, when the original contains a
recognized directive line and the fix contains none, the result is the
original directive line **with surrounding whitespace trimmed**,
followed by a newline and the fix; when the fix already contains a
directive, the result is the fix unchanged. -/
theorem preserveInit_trimmed_directive (original fixed l : Str) :
    (findInitLine original = some l → hasInitDirective fixed = false →
      preserveInitIfNeeded original fixed true = trimJs l ++ '\n' :: fixed) ∧
    (hasInitDirective fixed = true →
      preserveInitIfNeeded original fixed true = fixed) := by
  constructor
  · intro hf hno
    simp [preserveInitIfNeeded, hf, hno]
  · intro hyes
    cases hfind : findInitLine original with
    | none => simp [preserveInitIfNeeded, hfind]
    | some l' => simp [preserveInitIfNeeded, hfind, hyes]

/-- Witness for the amended C5 at the indented-directive input (and, in
the second component, at a fix that already carries a directive). -/
theorem preserveInit_trimmed_directive_witness :
    preserveInitIfNeeded ("  %%\x7binit: a\x7d%%\nflowchart TD".data)
        ("flowchart TD".data) true =
      trimJs ("  %%\x7binit: a\x7d%%".data) ++ '\n' :: ("flowchart TD".data) ∧
    preserveInitIfNeeded ("  %%\x7binit: a\x7d%%\nflowchart TD".data)
        ("%%\x7binit:x\x7d%%\ngraph TD".data) true =
      ("%%\x7binit:x\x7d%%\ngraph TD".data) :=
  ⟨(preserveInit_trimmed_directive ("  %%\x7binit: a\x7d%%\nflowchart TD".data)
      ("flowchart TD".data) ("  %%\x7binit: a\x7d%%".data)).1
      (by decide) (by decide),
   (preserveInit_trimmed_directive ("  %%\x7binit: a\x7d%%\nflowchart TD".data)
      ("%%\x7binit:x\x7d%%\ngraph TD".data) []).2 (by decide)⟩

/-! ## C6 — normalization idempotence -/

/-- C6 (code bug): the correction client's `preNormalizeMermaid` is not
idempotent, although the specification requires idempotence as a
testable property.  The bracket pass runs *before* the surface pass, so
a zero-width character spliced inside a break tag (`[x<b&#x200b;r>y]`)
survives the first bracket pass, is deleted by surface normalization —
leaving a well-formed `<br>` inside the (now quoted) label — and is
only rewritten to `\n` by a second application. -/
theorem gemini_preNormalize_not_idempotent :
    Gemini.preNormalizeMermaid ("[x<b\u200br>y]".data) =
      ("[\"x<br>y\"]".data) ∧
    Gemini.preNormalizeMermaid (Gemini.preNormalizeMermaid
        ("[x<b\u200br>y]".data)) = ("[\"x\\ny\"]".data) ∧
    Gemini.preNormalizeMermaid (Gemini.preNormalizeMermaid
        ("[x<b\u200br>y]".data)) ≠
      Gemini.preNormalizeMermaid ("[x<b\u200br>y]".data) := by
  refine ⟨by decide, by decide, by decide⟩

/-! ## C7 — the two normalizations -/

/-- C7 counterexample: the validation oracle's normalization and the
correction client's normalization are not the same function — on a
lone BOM character the former is the identity while the latter deletes
it. -/
theorem normalizations_differ_counterexample :
    Utils.preNormalizeMermaid ("\ufeff".data) = ("\ufeff".data) ∧
    Gemini.preNormalizeMermaid ("\ufeff".data) = [] ∧
    Utils.preNormalizeMermaid ("\ufeff".data) ≠
      Gemini.preNormalizeMermaid ("\ufeff".data) := by
  refine ⟨by decide, by decide, by decide⟩

/-- C7 amended: the two normalizations are distinct functions (there is
a string on which they disagree), though they coincide on the canonical
break-tag node label `A[x<br>y]`, which both rewrite to
`A["x\ny"]`. -/
theorem normalizations_distinct_agree_on_br :
    Utils.preNormalizeMermaid ("A[x<br>y]".data) = ("A[\"x\\ny\"]".data) ∧
    Gemini.preNormalizeMermaid ("A[x<br>y]".data) = ("A[\"x\\ny\"]".data) ∧
    Utils.preNormalizeMermaid ("A[x<br>y]".data) =
      Gemini.preNormalizeMermaid ("A[x<br>y]".data) ∧
    ∃ s, Utils.preNormalizeMermaid s ≠ Gemini.preNormalizeMermaid s := by
  refine ⟨by decide, by decide, by decide, ⟨("\ufeff".data), by decide⟩⟩

/-! ## C8 — scoped error-hook discipline -/

/-- C8: `validateMermaidAsync` restores the `parseError` hook to its
prior value on every exit path — for every input, every availability of
the parse entry points, and every parser behaviour (normal return,
rejection/throw, hook reports, even a parser that overwrites the hook),
the mermaid object's `parseError` after the call equals its value
before the call (vacuously so when no mermaid object exists). -/
theorem validateMermaidAsync_restores_parseError {α : Type}
    (api : Option (MermaidApi α)) (trapHook : α)
    (runParse : Str → MermaidApi α → ParseRun α) (codeRaw : Str) :
    ((validateMermaidAsync api trapHook runParse codeRaw).2).map
        MermaidApi.parseError =
      api.map MermaidApi.parseError := by
  cases api with
  | none => rfl
  | some m =>
    simp only [validateMermaidAsync]
    by_cases hb : (m.hasParse || m.hasApiParse || m.hasRender) = true
    · rw [if_pos hb]
      rcases (runParse (Utils.preNormalizeMermaid codeRaw)
          { m with parseError := trapHook }).outcome with e | u
      · rfl
      · rcases (runParse (Utils.preNormalizeMermaid codeRaw)
            { m with parseError := trapHook }).reported with _ | t <;> rfl
    · rw [if_neg hb]

/-! ## C9 — memoization determinism -/

theorem memoLookup_insert (memo : List (Str × Str)) (key v : Str) :
    memoLookup (memoInsert memo key v) key = some v := by
  simp [memoLookup, memoInsert]

/-- C9: if a `geminiFixSingle` call with key components
(apiVersion, model, inferred diagram type, normalized input, error)
succeeds with output `s`, then a second call against the resulting memo
with identical key components — under *any* network behaviour — returns
exactly `s` and issues no network request. -/
theorem geminiFixSingle_memo_deterministic
    (promptBuilder : Str → Str → Option Str → Str)
    (net net' : Str → Except Str (HttpResponse × Option GeminiEnvelope))
    (memo : List (Str × Str)) (apiVersion model original errorMsg : Str)
    (original' errorMsg' : Str) (s : Str)
    (hd : inferDiagramType original' = inferDiagramType original)
    (hp : Gemini.preNormalizeMermaid original' =
      Gemini.preNormalizeMermaid original)
    (he : errorMsg' = errorMsg)
    (hsucc : (geminiFixSingle promptBuilder net memo apiVersion model original
        errorMsg).result = .ok s) :
    (geminiFixSingle promptBuilder net'
        (geminiFixSingle promptBuilder net memo apiVersion model original
          errorMsg).memo
        apiVersion model original' errorMsg').result = .ok s ∧
    (geminiFixSingle promptBuilder net'
        (geminiFixSingle promptBuilder net memo apiVersion model original
          errorMsg).memo
        apiVersion model original' errorMsg').networkCalled = false := by
  have hkey : fixMemoKey apiVersion model (inferDiagramType original')
      (Gemini.preNormalizeMermaid original') errorMsg' =
    fixMemoKey apiVersion model (inferDiagramType original)
      (Gemini.preNormalizeMermaid original) errorMsg := by
    rw [hd, hp, he]
  set key := fixMemoKey apiVersion model (inferDiagramType original)
    (Gemini.preNormalizeMermaid original) errorMsg with hkeydef
  cases hlook : memoLookup memo key with
  | some m =>
    have hfirst : geminiFixSingle promptBuilder net memo apiVersion model
        original errorMsg = ⟨.ok m, memo, false⟩ := by
      simp [geminiFixSingle, ← hkeydef, hlook]
    rw [hfirst] at hsucc ⊢
    cases hsucc
    constructor <;> simp [geminiFixSingle, hkey, ← hkeydef, hlook]
  | none =>
    have hexpand : geminiFixSingle promptBuilder net memo apiVersion model
        original errorMsg =
      match net (promptBuilder (Gemini.preNormalizeMermaid original) errorMsg
          (inferDiagramType original)) with
      | .error e => ⟨.error e, memo, true⟩
      | .ok (res, parsed) =>
        match callGeminiSingle apiVersion res parsed with
        | .error e => ⟨.error e, memo, true⟩
        | .ok raw =>
          let result := sanitizeMermaidOutput (extractFromSentinel raw)
          if result = [] then
            if Gemini.preNormalizeMermaid original ≠ [] &&
                Gemini.preNormalizeMermaid original ≠ original then
              ⟨.ok (Gemini.preNormalizeMermaid original),
                memoInsert memo key (Gemini.preNormalizeMermaid original), true⟩
            else ⟨.error ("Geminiが有効な修正案を返しませんでした（空出力）。".data),
              memo, true⟩
          else ⟨.ok result, memoInsert memo key result, true⟩ := by
      simp only [geminiFixSingle, ← hkeydef, hlook]
    rw [hexpand] at hsucc ⊢
    cases hnet : net (promptBuilder (Gemini.preNormalizeMermaid original)
        errorMsg (inferDiagramType original)) with
    | error e =>
      rw [hnet] at hsucc
      simp at hsucc
    | ok rp =>
      rw [hnet] at hsucc
      obtain ⟨res, parsed⟩ := rp
      dsimp only at hsucc ⊢
      cases hcg : callGeminiSingle apiVersion res parsed with
      | error e =>
        rw [hcg] at hsucc
        simp at hsucc
      | ok raw =>
        rw [hcg] at hsucc
        dsimp only at hsucc ⊢
        by_cases hres : sanitizeMermaidOutput (extractFromSentinel raw) = []
        · rw [if_pos hres] at hsucc ⊢
          by_cases hpre : (decide (Gemini.preNormalizeMermaid original ≠ []) &&
              decide (Gemini.preNormalizeMermaid original ≠ original)) = true
          · rw [if_pos hpre] at hsucc ⊢
            dsimp only at hsucc ⊢
            have hs : Gemini.preNormalizeMermaid original = s := by
              simpa using hsucc
            subst hs
            constructor <;>
              simp [geminiFixSingle, hkey, ← hkeydef, memoLookup_insert]
          · rw [if_neg hpre] at hsucc
            simp at hsucc
        · rw [if_neg hres] at hsucc ⊢
          dsimp only at hsucc ⊢
          have hs : sanitizeMermaidOutput (extractFromSentinel raw) = s := by
            simpa using hsucc
          subst hs
          constructor <;>
            simp [geminiFixSingle, hkey, ← hkeydef, memoLookup_insert]

/-- Witness for C9: a concrete successful first call (HTTP 200, a STOP
candidate wrapped in sentinels) followed by a second call whose network
is entirely down; the second call still returns the same fix and makes
no request. -/
theorem geminiFixSingle_memo_deterministic_witness :
    (geminiFixSingle (fun _ _ _ => []) (fun _ => .ok (⟨200, []⟩,
        some ⟨[⟨some ("STOP".data),
          [("BEGIN_MERMAID\nflowchart TD\nEND_MERMAID".data)]⟩], none, []⟩))
      [] ("v1beta".data) ("gemini-2.5-flash-lite".data)
      ("flowchart TD".data) ("e".data)).result = .ok ("flowchart TD".data) ∧
    (geminiFixSingle (fun _ _ _ => []) (fun _ => .error ("down".data))
      (geminiFixSingle (fun _ _ _ => []) (fun _ => .ok (⟨200, []⟩,
          some ⟨[⟨some ("STOP".data),
            [("BEGIN_MERMAID\nflowchart TD\nEND_MERMAID".data)]⟩], none, []⟩))
        [] ("v1beta".data) ("gemini-2.5-flash-lite".data)
        ("flowchart TD".data) ("e".data)).memo
      ("v1beta".data) ("gemini-2.5-flash-lite".data)
      ("flowchart TD".data) ("e".data)).result = .ok ("flowchart TD".data) ∧
    (geminiFixSingle (fun _ _ _ => []) (fun _ => .error ("down".data))
      (geminiFixSingle (fun _ _ _ => []) (fun _ => .ok (⟨200, []⟩,
          some ⟨[⟨some ("STOP".data),
            [("BEGIN_MERMAID\nflowchart TD\nEND_MERMAID".data)]⟩], none, []⟩))
        [] ("v1beta".data) ("gemini-2.5-flash-lite".data)
        ("flowchart TD".data) ("e".data)).memo
      ("v1beta".data) ("gemini-2.5-flash-lite".data)
      ("flowchart TD".data) ("e".data)).networkCalled = false := by
  have h := geminiFixSingle_memo_deterministic (fun _ _ _ => [])
    (fun _ => .ok (⟨200, []⟩, some ⟨[⟨some ("STOP".data),
      [("BEGIN_MERMAID\nflowchart TD\nEND_MERMAID".data)]⟩], none, []⟩))
    (fun _ => .error ("down".data)) [] ("v1beta".data)
    ("gemini-2.5-flash-lite".data) ("flowchart TD".data) ("e".data)
    ("flowchart TD".data) ("e".data) ("flowchart TD".data) rfl rfl rfl
    (by decide)
  exact ⟨by decide, h.1, h.2⟩

/-! ## C10 — the timeout wrapper's non-positive guard -/

/-- C10: for `ms ≤ 0`, `withTimeout` returns the promise itself with no
timer armed and no abort ever issued (so a non-positive timeout makes
the call unbounded — the outcome is the promise's own, whatever its
settle time); only for `ms > 0` is the race in effect, arming the timer
and aborting exactly when the promise does not settle first. -/
theorem withTimeout_nonpositive_passthrough {α : Type} (pTime : Nat)
    (pOutcome : Except Str α) (ms : Int) :
    (ms ≤ 0 → withTimeout pTime pOutcome ms = ⟨false, false, pOutcome⟩) ∧
    (0 < ms → (pTime : Int) < ms →
      withTimeout pTime pOutcome ms = ⟨true, false, pOutcome⟩) ∧
    (0 < ms → ms ≤ (pTime : Int) →
      withTimeout pTime pOutcome ms = ⟨true, true, .error timeoutErrMsg⟩) := by
  refine ⟨fun h => ?_, fun h1 h2 => ?_, fun h1 h2 => ?_⟩
  · rw [withTimeout, if_pos h]
  · rw [withTimeout, if_neg (by omega), if_pos h2]
  · rw [withTimeout, if_neg (by omega), if_neg (by omega)]

/-- Witness for C10 at `ms = 0` (pass-through), a fast promise under a
30 s timeout, and a slow promise under a 9 ms timeout. -/
theorem withTimeout_nonpositive_passthrough_witness :
    withTimeout 500000 (Except.ok ("v".data)) 0 =
      ⟨false, false, Except.ok ("v".data)⟩ ∧
    withTimeout 1 (Except.ok ("v".data)) 30000 =
      ⟨true, false, Except.ok ("v".data)⟩ ∧
    withTimeout 30000 (Except.ok ("v".data)) 9 =
      ⟨true, true, .error timeoutErrMsg⟩ :=
  ⟨(withTimeout_nonpositive_passthrough 500000 (Except.ok ("v".data)) 0).1
      (by decide),
   (withTimeout_nonpositive_passthrough 1 (Except.ok ("v".data)) 30000).2.1
      (by decide) (by decide),
   (withTimeout_nonpositive_passthrough 30000 (Except.ok ("v".data)) 9).2.2
      (by decide) (by decide)⟩

end MermaidZoom
